import Mathlib

/-!
Verification development for the jimmitjoo/ecom event-sourced product store.

The Go sources are shallowly embedded as executable Lean definitions:

* `src/domain/models/product.go`     → `Price`, `Stock`, `Variant`,
  `MarketMetadata`, `Product`, `Product.calculateHash`, `Product.clone`,
  `ValidateProduct`
* `src/domain/models/event.go`       → `EventType`, `ProductEvent`, `Event`
* `src/infrastructure/locks/distributed_lock.go` → `acquireLock`,
  `releaseLock`, `refreshLock`
* `src/infrastructure/events/memory/event_store.go` → `RepoState.storeEvent`,
  `getEvents`
* `src/infrastructure/repositories/memory/product_repository.go` →
  `RepoState.create`, `RepoState.getByID`, `RepoState.update`,
  `RepoState.deleteProd`, `listProducts`
* `src/application/services/product_service.go` → `createProduct`,
  `updateProduct`, `deleteProduct`, `batchCreateProducts`,
  `batchUpdateProducts`, `batchDeleteProducts`, `replayEvents`,
  `calculateChanges`

Modelling conventions.  Go machine integers are `Int` (no overflow is
exercised anywhere near the claims); `time.Time` values are an abstract
integer clock; `float64` price amounts are `Int` (no float arithmetic is
performed on them by any code under study).  Go maps are association lists
with first-match lookup.  The sha256-over-canonical-JSON digest of
`Product.CalculateHash` is modelled as a canonical string encoding of
exactly the fields the source serializes (id, sku, base title, description,
prices, variants, metadata, version): like the source digest it is a pure
deterministic function of those fields and of nothing else, and is never
the empty string.  Reference/aliasing behaviour of Go slices and maps -
invisible under value semantics - is modelled separately with an explicit
heap (`Heap`, `HProduct`) for the clone-ownership analysis.

The service pipeline is modelled as a sequential state machine
(`ServiceState`); the Go batch operations run their per-item bodies in
goroutines joined before return, each item writing only its own result
slot, which the model renders as an index-preserving fold.
-/

namespace Ecom

/-! ### Data model (src/domain/models/product.go) -/

/-- Price for a specific market (`models.Price`). -/
structure Price where
  currency : String
  amount : Int
deriving DecidableEq

/-- Inventory for a specific location (`models.Stock`). -/
structure Stock where
  locationID : String
  quantity : Int
deriving DecidableEq

/-- Product variant (`models.Variant`); `attributes` models the Go
`map[string]string` as an association list. -/
structure Variant where
  id : String
  sku : String
  attributes : List (String × String)
  stock : List Stock
deriving DecidableEq

/-- Market-specific metadata (`models.MarketMetadata`). -/
structure MarketMetadata where
  market : String
  title : String
  description : String
  keywords : String
deriving DecidableEq

/-- The aggregate (`models.Product`). -/
structure Product where
  id : String
  sku : String
  baseTitle : String
  description : String
  prices : List Price
  variants : List Variant
  metadata : List MarketMetadata
  createdAt : Int
  updatedAt : Int
  version : Int
  lastHash : String
deriving DecidableEq

/-- Separator-based canonical encoding of a list, standing in for the
stable-order JSON array serialization used by `CalculateHash`. -/
def encListAux (f : α → String) : List α → String
  | [] => ""
  | [x] => f x
  | x :: xs => f x ++ "," ++ encListAux f xs

def encList (f : α → String) (l : List α) : String :=
  "[" ++ encListAux f l ++ "]"

def encStr (s : String) : String :=
  "(" ++ s ++ ")"

def encInt (i : Int) : String :=
  toString i

def Price.enc (p : Price) : String :=
  "pr(" ++ encStr p.currency ++ "," ++ encInt p.amount ++ ")"

def Stock.enc (s : Stock) : String :=
  "st(" ++ encStr s.locationID ++ "," ++ encInt s.quantity ++ ")"

def encAttr (a : String × String) : String :=
  "at(" ++ encStr a.1 ++ "," ++ encStr a.2 ++ ")"

def Variant.enc (v : Variant) : String :=
  "va(" ++ encStr v.id ++ "," ++ encStr v.sku ++ "," ++
    encList encAttr v.attributes ++ "," ++ encList Stock.enc v.stock ++ ")"

def MarketMetadata.enc (m : MarketMetadata) : String :=
  "mm(" ++ encStr m.market ++ "," ++ encStr m.title ++ "," ++
    encStr m.description ++ "," ++ encStr m.keywords ++ ")"

/-- `Product.CalculateHash` (product.go lines 61-87): a deterministic digest
over exactly {ID, SKU, BaseTitle, Description, Prices, Variants, Metadata,
Version}, excluding the timestamps and `LastHash` itself.  The source
computes sha256 over a stable-field-order JSON serialization; the model
keeps the canonical serialization itself as the digest, preserving that the
digest is a pure function of these eight fields and is never empty. -/
def Product.calculateHash (p : Product) : String :=
  "sha256:" ++ encStr p.id ++ "," ++ encStr p.sku ++ "," ++
    encStr p.baseTitle ++ "," ++ encStr p.description ++ "," ++
    encList Price.enc p.prices ++ "," ++ encList Variant.enc p.variants ++
    "," ++ encList MarketMetadata.enc p.metadata ++ "," ++ encInt p.version

/-- `Product.UpdateVersion` (product.go lines 90-93). -/
def Product.updateVersion (p : Product) : Product :=
  let q := { p with version := p.version + 1 }
  { q with lastHash := q.calculateHash }

/-- `Product.Clone` (product.go lines 96-117) under value semantics: the
source copies every scalar field and rebuilds the three top-level slices
with `make`+`copy`, so the resulting value is equal to the input; which
backing storage is fresh versus shared is invisible to value semantics and
is analysed with the explicit heap model (`HProduct.clone`) below. -/
def Product.clone (p : Product) : Product := p

/-- `models.ValidateProduct` via the go-playground/validator tags on
`models.Product`: `required` on a string field demands a non-zero (non-empty)
value, `len=3` fixes the currency length, `gte=0` bounds numbers below, and
`dive` descends into list elements.  `required` on a slice or map only
rejects `nil`, which value semantics cannot distinguish from empty, so those
checks are omitted. -/
def Price.validB (p : Price) : Bool :=
  p.currency.length == 3 && !(p.amount == 0) && (0 ≤ p.amount)

def Stock.validB (s : Stock) : Bool :=
  !(s.locationID == "") && (0 ≤ s.quantity)

def Variant.validB (v : Variant) : Bool :=
  !(v.id == "") && !(v.sku == "")

def MarketMetadata.validB (m : MarketMetadata) : Bool :=
  !(m.market == "") && !(m.title == "")

def ValidateProduct (p : Product) : Bool :=
  !(p.id == "") && !(p.sku == "") && !(p.baseTitle == "") &&
    p.prices.all Price.validB && p.variants.all Variant.validB &&
    p.metadata.all MarketMetadata.validB

/-! ### Events (src/domain/models/event.go) -/

/-- Event types (`models.EventType` constants). -/
inductive EventType where
  | productCreated
  | productUpdated
  | productDeleted
deriving DecidableEq

/-- A recorded field-level change (`models.Change`); the service only ever
stores string-valued old/new values (`calculateChanges`). -/
structure Change where
  field : String
  oldValue : String
  newValue : String
deriving DecidableEq

/-- Product-specific event payload (`models.ProductEvent`); `product` is a
`*Product` in Go, hence `Option`. -/
structure ProductEvent where
  productID : String
  action : String
  product : Option Product
  version : Int
  prevHash : String
  changes : List Change
deriving DecidableEq

/-- The `interface\x7b\x7d`-typed `Event.Data`: either a `*ProductEvent` or
some other runtime type (on which the replay type assertion fails). -/
inductive EventData where
  | productData (pe : ProductEvent)
  | otherData
deriving DecidableEq

/-- A system event (`models.Event`). -/
structure Event where
  id : String
  type : EventType
  data : EventData
  timestamp : Int
  version : Int
  entityID : String
  causedBy : String
  sequence : Int
deriving DecidableEq

/-! ### Association lists standing in for Go maps -/

def lookupA (k : String) : List (String × α) → Option α
  | [] => none
  | (k2, v) :: rest => if k2 = k then some v else lookupA k rest

def insertA (k : String) (v : α) : List (String × α) → List (String × α)
  | [] => [(k, v)]
  | (k2, w) :: rest =>
    if k2 = k then (k, v) :: rest else (k2, w) :: insertA k v rest

def eraseA (k : String) : List (String × α) → List (String × α)
  | [] => []
  | (k2, w) :: rest =>
    if k2 = k then eraseA k rest else (k2, w) :: eraseA k rest

/-! ### Lock manager (src/infrastructure/locks/distributed_lock.go) -/

/-- A held lock (`locks.Lock`). -/
structure LockEntry where
  owner : String
  expiresAt : Int
deriving DecidableEq

def lockOwnerName : String := "owner"

/-- `MemoryLockManager.AcquireLock` (distributed_lock.go lines 36-57).
Returns (new lock table, acquired, error returned).  `cancelled` is whether
`ctx.Err()` is already non-nil at entry; `now` is the `time.Now()` reading.
An existing entry blocks acquisition exactly when `now` is strictly before
its expiry; otherwise it is deleted and a fresh lock with expiry
`now + ttl` is installed. -/
def acquireLock (locks : List (String × LockEntry)) (cancelled : Bool)
    (key : String) (ttl now : Int) :
    List (String × LockEntry) × Bool × Bool :=
  if cancelled then (locks, false, true)
  else
    match lookupA key locks with
    | some entry =>
      if now < entry.expiresAt then (locks, false, false)
      else
        (insertA key ⟨lockOwnerName, now + ttl⟩ (eraseA key locks),
          true, false)
    | none => (insertA key ⟨lockOwnerName, now + ttl⟩ locks, true, false)

/-- `MemoryLockManager.ReleaseLock` (lines 59-64): unconditional delete. -/
def releaseLock (locks : List (String × LockEntry)) (key : String) :
    List (String × LockEntry) :=
  eraseA key locks

/-- `MemoryLockManager.RefreshLock` (lines 66-75). -/
def refreshLock (locks : List (String × LockEntry)) (key : String)
    (ttl now : Int) : List (String × LockEntry) :=
  match lookupA key locks with
  | some entry => insertA key ⟨entry.owner, now + ttl⟩ locks
  | none => locks

/-! ### Repository and event store
(src/infrastructure/repositories/memory/product_repository.go,
src/infrastructure/events/memory/event_store.go) -/

inductive RepoErr where
  | productNotFound
deriving DecidableEq

/-- Live aggregate table plus append-only event store (the in-memory
repository owns both). -/
structure RepoState where
  products : List (String × Product)
  events : List Event
deriving DecidableEq

/-- `ProductRepository.Create`: unconditional map insert, never fails. -/
def RepoState.create (r : RepoState) (p : Product) : RepoState :=
  { r with products := insertA p.id p r.products }

/-- `ProductRepository.GetByID`: `none` models the `ErrProductNotFound`
return. -/
def RepoState.getByID (r : RepoState) (id : String) : Option Product :=
  lookupA id r.products

/-- `ProductRepository.Update`: fails with `ErrProductNotFound` when the id
is absent, otherwise replaces the stored aggregate. -/
def RepoState.update (r : RepoState) (p : Product) :
    Except RepoErr RepoState :=
  match lookupA p.id r.products with
  | none => .error .productNotFound
  | some _ => .ok { r with products := insertA p.id p r.products }

/-- `ProductRepository.Delete`: fails with `ErrProductNotFound` when the id
is absent, otherwise removes the aggregate from the live table. -/
def RepoState.deleteProd (r : RepoState) (id : String) :
    Except RepoErr RepoState :=
  match lookupA id r.products with
  | none => .error .productNotFound
  | some _ => .ok { r with products := eraseA id r.products }

/-- `MemoryEventStore.StoreEvent` (event_store.go lines 23-37): appends a
deep copy of the event, cloning the payload snapshot via `Product.Clone`
so the stored entry owns its data; under value semantics the stored value
equals the argument.  Never fails. -/
def RepoState.storeEvent (r : RepoState) (e : Event) : RepoState :=
  { r with events := r.events ++ [e] }

/-- `MemoryEventStore.GetEvents` (lines 40-59): all events of the entity
with version at least `fromVersion`, in store order, again returning
payload-snapshot clones. -/
def getEvents (events : List Event) (entityID : String)
    (fromVersion : Int) : List Event :=
  events.filter (fun e => e.entityID == entityID && fromVersion ≤ e.version)

/-! ### Write orchestrator (src/application/services/product_service.go) -/

/-- Distinct error returns of the service operations, one constructor per
`errors.New` / `fmt.Errorf` site reachable in the in-memory wiring. -/
inductive SvcErr where
  | emptyProductID
  | lockContention
  | getCurrentFailed
  | versionConflict (expected got : Int)
  | repoUpdateFailed
  | productNotFound
deriving DecidableEq

/-- The `err.Error()` strings the batch operations capture. -/
def SvcErr.message : SvcErr → String
  | .emptyProductID => "product ID cannot be empty"
  | .lockContention => "could not acquire lock for update"
  | .getCurrentFailed => "failed to get current product: product not found"
  | .versionConflict e g =>
    "version conflict: expected " ++ toString e ++ ", got " ++ toString g
  | .repoUpdateFailed => "failed to update product: product not found"
  | .productNotFound => "product not found"

/-- Whole state of one wired service instance: repository (live table +
event store), lock-manager table, the orchestrator's atomic sequence
counter, the events handed to the publisher (the in-memory publisher
always returns nil), a counter feeding `uuid.New`, and the abstract
clock read by `time.Now`. -/
structure ServiceState where
  repo : RepoState
  locks : List (String × LockEntry)
  sequence : Int
  published : List Event
  nextUuid : Nat
  now : Int
deriving DecidableEq

def uuidString (n : Nat) : String :=
  "uuid-" ++ toString n

/-- `getNextSequence` result on a state. -/
def nextSeq (s : ServiceState) : Int :=
  s.sequence + 1

/-- The lock TTL used by `UpdateProduct` (`10 * time.Second`). -/
def updateLockTTL : Int := 10

/-- `calculateChanges` (product_service.go lines 397-411): the source only
compares `BaseTitle`. -/
def calculateChanges (pOld pNew : Product) : List Change :=
  if pOld.baseTitle ≠ pNew.baseTitle then
    [{ field := "base_title", oldValue := pOld.baseTitle,
       newValue := pNew.baseTitle }]
  else []

/-- `CreateProduct` (product_service.go lines 43-82).  Assigns a fresh id
and timestamps, sets version 1, computes the hash, stores a creation event
(empty `PrevHash`, payload snapshot of the new aggregate), inserts the
aggregate, publishes the event.  Every fallible call on this path
(`StoreEvent`, `Create`, `Publish`) is to an in-memory implementation that
always returns nil, so the Go function always returns a nil error; the
model therefore returns the mutated product directly. -/
def createProduct (s : ServiceState) (draft : Product) :
    ServiceState × Product :=
  let pid := "prod_" ++ uuidString s.nextUuid
  let p1 := { draft with
    id := pid, createdAt := s.now, updatedAt := s.now, version := 1 }
  let p2 := { p1 with lastHash := p1.calculateHash }
  let ev : Event := {
    id := uuidString (s.nextUuid + 1),
    type := .productCreated,
    entityID := pid,
    version := p2.version,
    sequence := nextSeq s,
    data := .productData {
      productID := pid, action := "created", product := some p2,
      version := p2.version, prevHash := "", changes := [] },
    timestamp := s.now,
    causedBy := "" }
  let s2 := { s with
    repo := (s.repo.storeEvent ev).create p2,
    sequence := nextSeq s,
    nextUuid := s.nextUuid + 2,
    published := s.published ++ [ev] }
  (s2, p2)

/-- Release of the per-key lock, as performed by the deferred
`ReleaseLock` in `UpdateProduct`. -/
def releaseIn (s : ServiceState) (key : String) : ServiceState :=
  { s with locks := releaseLock s.locks key }

/-- The bumped aggregate `UpdateProduct` builds from a candidate:
`Clone`, version increment, fresh `UpdatedAt`, recomputed hash. -/
def bumped (product : Product) (now : Int) : Product :=
  let up1 := { product.clone with
    version := product.version + 1, updatedAt := now }
  { up1 with lastHash := up1.calculateHash }

/-- The update event `UpdateProduct` emits: version of the bumped
aggregate, `PrevHash` from the committed aggregate, a snapshot clone of
the bumped aggregate, and the field diff. -/
def updateEvent (s1 : ServiceState) (current up2 : Product) : Event :=
  { id := uuidString s1.nextUuid,
    type := .productUpdated,
    entityID := up2.id,
    version := up2.version,
    sequence := nextSeq s1,
    data := .productData {
      productID := up2.id, action := "updated",
      product := some up2.clone, version := up2.version,
      prevHash := current.lastHash,
      changes := calculateChanges current up2 },
    timestamp := s1.now,
    causedBy := "" }

/-- The tail of `UpdateProduct` past the version check (lines 125-162):
build the bumped aggregate and its event, store the event, replace the
aggregate, publish, release the lock on the way out. -/
def updateApply (s1 : ServiceState) (product current : Product) :
    ServiceState × Except SvcErr Product :=
  let up2 := bumped product s1.now
  let ev := updateEvent s1 current up2
  let repo1 := s1.repo.storeEvent ev
  let s2 := { s1 with
    repo := repo1, sequence := nextSeq s1, nextUuid := s1.nextUuid + 1 }
  match repo1.update up2 with
  | .error _ => (releaseIn s2 product.id, .error .repoUpdateFailed)
  | .ok repo2 =>
    (releaseIn { s2 with
        repo := repo2, published := s2.published ++ [ev] }
      product.id,
      .ok up2)

/-- `UpdateProduct` (product_service.go lines 90-163).  The `product == nil`
guard has no counterpart under value semantics.  `context.Background()` is
never cancelled, so `AcquireLock` never returns an error here.  The
deferred `ReleaseLock` fires on every exit path after a successful
acquisition. -/
def updateProduct (s : ServiceState) (product : Product) :
    ServiceState × Except SvcErr Product :=
  if product.id = "" then (s, .error .emptyProductID)
  else
    let acq := acquireLock s.locks false product.id updateLockTTL s.now
    let s1 := { s with locks := acq.1 }
    if acq.2.1 = false then (s1, .error .lockContention)
    else
      match s1.repo.getByID product.id with
      | none => (releaseIn s1 product.id, .error .getCurrentFailed)
      | some current =>
        if product.version ≠ current.version then
          (releaseIn s1 product.id,
            .error (.versionConflict current.version product.version))
        else updateApply s1 product current

/-- `DeleteProduct` (product_service.go lines 166-202).  Reads the current
aggregate, stores a deletion event at `current.Version + 1` whose
`PrevHash` is the current hash, removes the aggregate, publishes. -/
def deleteProduct (s : ServiceState) (id : String) :
    ServiceState × Except SvcErr Unit :=
  match s.repo.getByID id with
  | none => (s, .error .productNotFound)
  | some product =>
    let ev : Event := {
      id := uuidString s.nextUuid,
      type := .productDeleted,
      entityID := id,
      version := product.version + 1,
      sequence := nextSeq s,
      data := .productData {
        productID := id, action := "deleted", product := some product,
        version := product.version + 1, prevHash := product.lastHash,
        changes := [] },
      timestamp := s.now,
      causedBy := "" }
    let repo1 := s.repo.storeEvent ev
    let s2 := { s with
      repo := repo1, sequence := nextSeq s, nextUuid := s.nextUuid + 1 }
    match repo1.deleteProd id with
    | .error _ => (s2, .error .productNotFound)
    | .ok repo2 =>
      ({ s2 with repo := repo2, published := s2.published ++ [ev] },
        .ok ())

/-! ### Batch coordinator (product_service.go lines 205-313)

The Go batch operations run one goroutine per item, joined with a
`WaitGroup` before returning; each goroutine writes only its own
`results[index]` slot under a mutex.  The model renders this as an
index-preserving traversal threading the shared state; the per-item result
construction is exactly the goroutine body's. -/

/-- `interfaces.BatchResult`. -/
structure BatchResult where
  id : String
  success : Bool
  error : String
deriving DecidableEq

/-- Per-item body of `BatchCreateProducts`: hand the draft to
`CreateProduct` (which on this wiring always succeeds) and record the
freshly assigned id in the slot (the source reads `p.ID` after the call,
which `CreateProduct` has overwritten). -/
def createResult (s : ServiceState) (p : Product) :
    ServiceState × BatchResult :=
  let c := createProduct s p
  (c.1, { id := c.2.id, success := true, error := "" })

/-- Per-item body of `BatchUpdateProducts`: hand the candidate to
`UpdateProduct`; the slot records success iff that call returned nil and
the error text otherwise. -/
def updateResult (s : ServiceState) (p : Product) :
    ServiceState × BatchResult :=
  let u := updateProduct s p
  match u.2 with
  | .ok up => (u.1, { id := up.id, success := true, error := "" })
  | .error e =>
    (u.1, { id := p.id, success := false, error := e.message })

/-- Per-item body of `BatchDeleteProducts` (lines 269-308).  Unlike the
other two batch bodies this does not delegate to the single-item
orchestrator: it reads the aggregate, deletes it from the live table, and
hands a deletion event directly to the publisher without ever calling
`StoreEvent`, without drawing a sequence number, and with the event's
`Version`, `EntityID`, `Sequence` and payload `Version`/`PrevHash` left at
their zero values. -/
def deleteResult (s : ServiceState) (id : String) :
    ServiceState × BatchResult :=
  match s.repo.getByID id with
  | none =>
    (s, { id := id, success := false, error := "Failed to find product" })
  | some product =>
    match s.repo.deleteProd id with
    | .error _ =>
      (s,
        { id := id, success := false, error := "Failed to delete product" })
    | .ok repo2 =>
      let ev : Event := {
        id := uuidString s.nextUuid,
        type := .productDeleted,
        entityID := "",
        version := 0,
        sequence := 0,
        data := .productData {
          productID := id, action := "deleted",
          product := some product, version := 0, prevHash := "",
          changes := [] },
        timestamp := s.now,
        causedBy := "" }
      ({ s with
          repo := repo2, nextUuid := s.nextUuid + 1,
          published := s.published ++ [ev] },
        { id := id, success := true, error := "" })

/-- The common worker-pool shape of the three batch operations: one slot
per item, slot `i` written only by item `i`'s body, all bodies joined
before return. -/
def batchRun (step : ServiceState → α → ServiceState × BatchResult) :
    ServiceState → List α → ServiceState × List BatchResult
  | s, [] => (s, [])
  | s, x :: xs =>
    let c := step s x
    let r := batchRun step c.1 xs
    (r.1, c.2 :: r.2)

/-- State threading of the per-item bodies, for speaking about the state
an individual item observes. -/
def threadState (step : ServiceState → α → ServiceState × BatchResult) :
    ServiceState → List α → ServiceState
  | s, [] => s
  | s, x :: xs => threadState step (step s x).1 xs

/-- `BatchCreateProducts` (lines 205-232); the `Option String` component is
the function's `error` return, which the source fixes to nil
(`return results, nil`). -/
def batchCreateProducts (s : ServiceState) (ps : List Product) :
    ServiceState × List BatchResult × Option String :=
  let r := batchRun createResult s ps
  (r.1, r.2, none)

/-- `BatchUpdateProducts` (lines 235-261). -/
def batchUpdateProducts (s : ServiceState) (ps : List Product) :
    ServiceState × List BatchResult × Option String :=
  let r := batchRun updateResult s ps
  (r.1, r.2, none)

/-- `BatchDeleteProducts` (lines 264-313). -/
def batchDeleteProducts (s : ServiceState) (ids : List String) :
    ServiceState × List BatchResult × Option String :=
  let r := batchRun deleteResult s ids
  (r.1, r.2, none)

/-! ### Replay with chain verification (product_service.go lines 335-395) -/

/-- Errors of `ReplayEvents`, one constructor per `errors.New`/`fmt.Errorf`
site; `chainBroken` carries the offending current and previous versions,
`integrityViolated` the expected and found hashes, exactly the data the
source formats into the message.  `nilSnapshot` marks the nil-pointer
dereference the source would hit on a stored update event whose payload
lacks a snapshot. -/
inductive ReplayErr where
  | invalidEventData
  | createEventHasPrevHash
  | nonCreateMissingPrevHash
  | chainBroken (curr prev : Int)
  | integrityViolated (expected got : String)
  | nilSnapshot
deriving DecidableEq

/-- Insertion step of the version sort (`sort.Slice` with
`events[i].Version < events[j].Version`). -/
def insertByVersion (e : Event) : List Event → List Event
  | [] => [e]
  | x :: xs =>
    if e.version ≤ x.version then e :: x :: xs
    else x :: insertByVersion e xs

def sortByVersion : List Event → List Event
  | [] => []
  | e :: es => insertByVersion e (sortByVersion es)

/-- The `i == 0` arm of the replay loop: a creation event must carry no
`PrevHash`; a first non-creation event must carry one.  The payload type
assertion precedes both checks. -/
def checkFirstEvent (e : Event) : Except ReplayErr Unit :=
  match e.data with
  | .otherData => .error .invalidEventData
  | .productData pe =>
    if e.type = EventType.productCreated then
      if pe.prevHash ≠ "" then .error .createEventHasPrevHash else .ok ()
    else
      if pe.prevHash = "" then .error .nonCreateMissingPrevHash else .ok ()

/-- The `i > 0` arms of the replay loop, walking adjacent pairs: payload
type assertions, then the version contiguity check, then the hash-link
check against the previous snapshot's `LastHash`. -/
def checkPairs : Event → List Event → Except ReplayErr Unit
  | _, [] => .ok ()
  | prev, curr :: rest =>
    match curr.data with
    | .otherData => .error .invalidEventData
    | .productData ce =>
      match prev.data with
      | .otherData => .error .invalidEventData
      | .productData pe =>
        if curr.version ≠ prev.version + 1 then
          .error (.chainBroken curr.version prev.version)
        else
          match pe.product with
          | none => .error .nilSnapshot
          | some prevProd =>
            if ce.prevHash ≠ prevProd.lastHash then
              .error (.integrityViolated prevProd.lastHash ce.prevHash)
            else checkPairs curr rest

/-- The whole verification loop of `ReplayEvents` over a version-sorted
sequence. -/
def validateChain : List Event → Except ReplayErr Unit
  | [] => .ok ()
  | e :: rest =>
    match checkFirstEvent e with
    | .error err => .error err
    | .ok _ => checkPairs e rest

/-- `ReplayEvents` (lines 335-395): query the store, return the empty
result as-is, otherwise sort ascending by version, verify the chain, and
return the sorted sequence unchanged on success or the first violation's
error otherwise. -/
def replayEvents (s : ServiceState) (productID : String)
    (fromVersion : Int) : Except ReplayErr (List Event) :=
  let evs := getEvents s.repo.events productID fromVersion
  if evs.isEmpty then .ok evs
  else
    let sorted := sortByVersion evs
    match validateChain sorted with
    | .error e => .error e
    | .ok _ => .ok sorted

/-! ### Paginated listing (product_repository.go lines 69-102) -/

/-- Insertion step of the newest-first sort (`sort.Slice` with
`CreatedAt.After`). -/
def insertByCreatedDesc (p : Product) : List Product → List Product
  | [] => [p]
  | x :: xs =>
    if x.createdAt < p.createdAt then p :: x :: xs
    else x :: insertByCreatedDesc p xs

def sortByCreatedDesc : List Product → List Product
  | [] => []
  | p :: ps => insertByCreatedDesc p (sortByCreatedDesc ps)

/-- Go slicing `l[a:b]` on a slice of length `len l`: defined exactly when
`0 ≤ a ≤ b ≤ len l`, a runtime panic (`none`) otherwise. -/
def goSlice (l : List α) (a b : Int) : Option (List α) :=
  if 0 ≤ a ∧ a ≤ b ∧ b ≤ (l.length : Int) then
    some ((l.drop a.toNat).take (b - a).toNat)
  else none

/-- `ProductRepository.List` (lines 69-102): materialize the table, sort
newest-first, compute `start = (page-1)*pageSize` and `end = start +
pageSize`, answer empty (with the total) when `start ≥ total`, otherwise
clamp `end` to the total and slice.  The `none` result models the
out-of-bounds slice panic; the Go map's iteration order is modelled by the
table's list order (the subsequent sort orders the result by creation
time). -/
def listProducts (r : RepoState) (page pageSize : Int) :
    Option (List Product × Int) :=
  let allP := sortByCreatedDesc (r.products.map (fun kv => kv.2))
  let total : Int := allP.length
  let start := (page - 1) * pageSize
  let stop := start + pageSize
  if total ≤ start then some ([], total)
  else
    let stop2 := if total < stop then total else stop
    (goSlice allP start stop2).map (fun res => (res, total))

/-! ### Heap model of slice and map ownership

Go slice and map values are headers pointing at shared mutable backing
storage; `Product.Clone` (product.go lines 96-117) rebuilds the three
top-level backing arrays with `make`+`copy` but copies each `Variant`
struct verbatim, so a variant's `Attributes` map header and `Stock` slice
header - and hence their backing storage - are carried over unchanged.
To make that observable the collections are placed in an explicit heap of
cells addressed by `Ref`; a product or variant holds references instead of
inline lists.  Reads are total in Go, so the typed readers default to the
empty collection on a type-mismatched or dangling reference (which never
arises in the states considered). -/

abbrev Ref := Nat

/-- `models.Variant` with its map and slice as heap references. -/
structure HVariant where
  id : String
  sku : String
  attributes : Ref
  stock : Ref
deriving DecidableEq

/-- One backing store: a price array, metadata array, variant array,
attribute map, or stock array. -/
inductive Cell where
  | priceCell (l : List Price)
  | metaCell (l : List MarketMetadata)
  | variantCell (l : List HVariant)
  | attrCell (l : List (String × String))
  | stockCell (l : List Stock)
deriving DecidableEq

structure Heap where
  cells : List (Ref × Cell)
  next : Ref
deriving DecidableEq

def lookupR (r : Ref) : List (Ref × Cell) → Option Cell
  | [] => none
  | (r2, c) :: rest => if r2 = r then some c else lookupR r rest

def Heap.read (h : Heap) (r : Ref) : Option Cell :=
  lookupR r h.cells

/-- Allocation of a fresh backing store (`make`). -/
def Heap.alloc (h : Heap) (c : Cell) : Ref × Heap :=
  (h.next, ⟨(h.next, c) :: h.cells, h.next + 1⟩)

/-- In-place mutation of a backing store (element assignment through any
holder of the reference). -/
def Heap.write (h : Heap) (r : Ref) (c : Cell) : Heap :=
  ⟨h.cells.map (fun p => if p.1 = r then (r, c) else p), h.next⟩

def Heap.readPrices (h : Heap) (r : Ref) : List Price :=
  match h.read r with
  | some (.priceCell l) => l
  | _ => []

def Heap.readMetas (h : Heap) (r : Ref) : List MarketMetadata :=
  match h.read r with
  | some (.metaCell l) => l
  | _ => []

def Heap.readVariants (h : Heap) (r : Ref) : List HVariant :=
  match h.read r with
  | some (.variantCell l) => l
  | _ => []

def Heap.readAttrs (h : Heap) (r : Ref) : List (String × String) :=
  match h.read r with
  | some (.attrCell l) => l
  | _ => []

def Heap.readStocks (h : Heap) (r : Ref) : List Stock :=
  match h.read r with
  | some (.stockCell l) => l
  | _ => []

/-- `models.Product` with its collections as heap references; `variants`
is `Option` because the source distinguishes a nil variants slice. -/
structure HProduct where
  id : String
  sku : String
  baseTitle : String
  description : String
  prices : Ref
  variants : Option Ref
  metadata : Ref
  createdAt : Int
  updatedAt : Int
  version : Int
  lastHash : String
deriving DecidableEq

/-- `Product.Clone` (product.go lines 96-117) over the heap: the struct is
copied field-wise, then fresh backing arrays are allocated for `Prices`,
`Metadata` and - when non-nil - `Variants`, each filled with a copy of the
source array's elements.  The copied `Variant` elements keep their
`attributes` and `stock` references: `copy(clone.Variants, p.Variants)`
duplicates the structs, not the collections behind them. -/
def HProduct.clone (p : HProduct) (h : Heap) : HProduct × Heap :=
  let a1 := h.alloc (.priceCell (h.readPrices p.prices))
  let a2 := a1.2.alloc (.metaCell (a1.2.readMetas p.metadata))
  match p.variants with
  | none => ({ p with prices := a1.1, metadata := a2.1 }, a2.2)
  | some rv =>
    let a3 := a2.2.alloc (.variantCell (a2.2.readVariants rv))
    ({ p with prices := a1.1, metadata := a2.1, variants := some a3.1 },
      a3.2)

/-- Concrete heap for the clone-aliasing analysis: one attribute map
(cell 0), one stock array (cell 1), one price array (cell 2), one metadata
array (cell 3) and one variant array (cell 4) whose single variant points
at cells 0 and 1. -/
def aliasHeap : Heap :=
  ⟨[(0, .attrCell [("size", "XL")]),
    (1, .stockCell [{ locationID := "loc1", quantity := 5 }]),
    (2, .priceCell [{ currency := "USD", amount := 10 }]),
    (3, .metaCell [{ market := "US", title := "Shirt",
                     description := "", keywords := "" }]),
    (4, .variantCell [{ id := "var1", sku := "SKU-1-XL",
                        attributes := 0, stock := 1 }])],
    5⟩

/-- The aggregate living in `aliasHeap`. -/
def aliasProd : HProduct :=
  { id := "prod_1", sku := "SKU-1", baseTitle := "Shirt",
    description := "", prices := 2, variants := some 4, metadata := 3,
    createdAt := 0, updatedAt := 0, version := 1,
    lastHash := "" }

/-! ### Derived notions used to state the claims -/

/-- All stored events of one entity, in store order. -/
def eventsFor (events : List Event) (entityID : String) : List Event :=
  events.filter (fun e => e.entityID == entityID)

/-- The payload's `PrevHash`, when the payload is a product event. -/
def payloadPrevHash (e : Event) : Option String :=
  match e.data with
  | .productData pe => some pe.prevHash
  | .otherData => none

/-- The `LastHash` of the payload's aggregate snapshot, when present. -/
def snapshotHash (e : Event) : Option String :=
  match e.data with
  | .productData pe => pe.product.map Product.lastHash
  | .otherData => none

/-- Condition (1) of the chain check on the first event: a creation event
with empty `PrevHash`, or a non-creation event with a non-empty one (with
a well-typed payload). -/
def condFirstB (e : Event) : Bool :=
  match e.data with
  | .otherData => false
  | .productData pe =>
    if e.type = EventType.productCreated then pe.prevHash == ""
    else !(pe.prevHash == "")

/-- Conditions (2) and (3) on every adjacent pair: contiguous versions and
`curr.PrevHash` equal to the previous snapshot's `LastHash` (with
well-typed payloads and a present previous snapshot). -/
def condPairsB : Event → List Event → Bool
  | _, [] => true
  | prev, curr :: rest =>
    (curr.version == prev.version + 1) &&
      (payloadPrevHash curr).isSome &&
      ((payloadPrevHash curr) == snapshotHash prev) &&
      condPairsB curr rest

/-- All three chain conditions of the claim, over a version-ordered list. -/
def chainOKB : List Event → Bool
  | [] => true
  | e :: rest => condFirstB e && condPairsB e rest

/-- Hash-linkage alone (the C2 invariant): every later event's `PrevHash`
equals its predecessor's snapshot `LastHash`. -/
def hashLinkB : Event → List Event → Bool
  | _, [] => true
  | prev, curr :: rest =>
    ((payloadPrevHash curr).isSome &&
      ((payloadPrevHash curr) == snapshotHash prev)) &&
      hashLinkB curr rest

def hashLinkedB : List Event → Bool
  | [] => true
  | e :: rest => hashLinkB e rest

/-- Last element of a list, with an explicit default for the empty case. -/
def lastD (d : Event) : List Event → Event
  | [] => d
  | x :: xs => lastD x xs

/-- The last stored event's snapshot hash. -/
def lastSnapHash : List Event → Option String
  | [] => none
  | e :: rest => snapshotHash (lastD e rest)

/-- Whether the first event of a history carries an empty `PrevHash`. -/
def firstPrevEmptyB : List Event → Bool
  | [] => true
  | e :: _ => payloadPrevHash e == some ""

/-- Whether `AcquireLock` on an uncancelled context would succeed right
now: no entry, or an entry whose expiry is not in the future. -/
def canAcquireB (locks : List (String × LockEntry)) (key : String)
    (now : Int) : Bool :=
  match lookupA key locks with
  | some entry => !(now < entry.expiresAt)
  | none => true

/-- The id `CreateProduct` will assign when run on state `s`. -/
def createdId (s : ServiceState) : String :=
  "prod_" ++ uuidString s.nextUuid

/-- Expected version sequence `1, 2, ..., n`. -/
def seqVersions (n : Nat) : List Int :=
  (List.range n).map (fun i => (i : Int) + 1)

/-- State after a sequence of `UpdateProduct` calls. -/
def applyUpdates : ServiceState → List Product → ServiceState
  | s, [] => s
  | s, c :: cs => applyUpdates (updateProduct s c).1 cs

/-- Every call of a sequence of `UpdateProduct` calls returned nil. -/
def updatesOkB : ServiceState → List Product → Bool
  | _, [] => true
  | s, c :: cs =>
    (match (updateProduct s c).2 with
      | .ok _ => true
      | .error _ => false) && updatesOkB (updateProduct s c).1 cs

/-- A freshly wired service: empty repository, no locks, zeroed
counters. -/
def initialState : ServiceState :=
  { repo := { products := [], events := [] }, locks := [], sequence := 0,
    published := [], nextUuid := 0, now := 0 }

/-- The zero `BatchResult`, used as the default of positional lookups. -/
def dfltResult : BatchResult :=
  { id := "", success := false, error := "" }

/-- Induction invariant relating a committed aggregate to its stored
history: the live table holds a product for the entity whose version
equals the number of its stored events, those events carry versions
`1, 2, ...` in store order, the first one has an empty `PrevHash`, each
later one is hash-linked to its predecessor's snapshot, and the last
snapshot's hash is the live aggregate's `LastHash`. -/
def chainInv (e : String) (s : ServiceState) : Prop :=
  ∃ p, s.repo.getByID e = some p ∧ p.id = e ∧
    (eventsFor s.repo.events e).map Event.version =
      seqVersions (eventsFor s.repo.events e).length ∧
    p.version = ((eventsFor s.repo.events e).length : Int) ∧
    firstPrevEmptyB (eventsFor s.repo.events e) = true ∧
    hashLinkedB (eventsFor s.repo.events e) = true ∧
    lastSnapHash (eventsFor s.repo.events e) = some p.lastHash

/-! ### Concrete fixtures for evaluating the operations -/

/-- A draft satisfying every modelled validation rule. -/
def fixDraft : Product :=
  { id := "seed", sku := "SKU-OK", baseTitle := "A", description := "",
    prices := [{ currency := "USD", amount := 10 }], variants := [],
    metadata := [{ market := "US", title := "T", description := "",
                   keywords := "" }],
    createdAt := 0, updatedAt := 0, version := 0, lastHash := "" }

/-- The same draft with an empty SKU, violating the `required` tag. -/
def fixBadDraft : Product :=
  { fixDraft with sku := "" }

/-- A committed aggregate at version 1. -/
def fixStored : Product :=
  { fixDraft with id := "p1", version := 1, lastHash := "h1" }

/-- A service state holding exactly `fixStored`. -/
def st7 : ServiceState :=
  { repo := { products := [("p1", fixStored)], events := [] },
    locks := [], sequence := 0, published := [], nextUuid := 0, now := 0 }

/-- A stale update candidate: same id as `fixStored`, wrong version. -/
def fixConflict : Product :=
  { fixStored with version := 2 }

/-- A well-versioned update candidate for the entity `CreateProduct`
assigns on `initialState`. -/
def fixCand : Product :=
  { fixDraft with id := "prod_uuid-0", version := 1, baseTitle := "B" }

/-- Three aggregates with distinct creation times for pagination. -/
def fix10Repo : RepoState :=
  { products :=
      [("a", { fixDraft with id := "a", createdAt := 1 }),
       ("b", { fixDraft with id := "b", createdAt := 3 }),
       ("c", { fixDraft with id := "c", createdAt := 2 })],
    events := [] }

/-- The version-2 successor of `fixStored`. -/
def fixStored2 : Product :=
  { fixStored with version := 2, lastHash := "h2" }

/-- A creation event for `fixStored` (empty `PrevHash`). -/
def fixEv1 : Event :=
  { id := "e1", type := .productCreated, entityID := "p1", version := 1,
    sequence := 1,
    data := .productData {
      productID := "p1", action := "created", product := some fixStored,
      version := 1, prevHash := "", changes := [] },
    timestamp := 0, causedBy := "" }

/-- An update event chained to `fixEv1` via `fixStored.lastHash`. -/
def fixEv2 : Event :=
  { id := "e2", type := .productUpdated, entityID := "p1", version := 2,
    sequence := 2,
    data := .productData {
      productID := "p1", action := "updated", product := some fixStored2,
      version := 2, prevHash := "h1", changes := [] },
    timestamp := 0, causedBy := "" }

/-- A service state whose store holds the two chained events out of
order. -/
def st3 : ServiceState :=
  { repo := { products := [("p1", fixStored2)], events := [fixEv2, fixEv1] },
    locks := [], sequence := 2, published := [], nextUuid := 0, now := 0 }

/-! ## Association-list facts -/

theorem lookupA_insertA_self (k : String) (v : α)
    (l : List (String × α)) : lookupA k (insertA k v l) = some v := by
  induction l with
  | nil => simp [insertA, lookupA]
  | cons hd t ih =>
    obtain ⟨k2, w⟩ := hd
    by_cases hk : k2 = k
    · simp [insertA, hk, lookupA]
    · simp [insertA, hk, lookupA, ih]

theorem lookupA_eraseA_self (k : String) (l : List (String × α)) :
    lookupA k (eraseA k l) = none := by
  induction l with
  | nil => simp [eraseA, lookupA]
  | cons hd t ih =>
    obtain ⟨k2, w⟩ := hd
    by_cases hk : k2 = k
    · simp [eraseA, hk, ih]
    · simp [eraseA, hk, lookupA, ih]

theorem eraseA_of_lookup_none (k : String) (l : List (String × α))
    (h : lookupA k l = none) : eraseA k l = l := by
  induction l with
  | nil => simp [eraseA]
  | cons hd t ih =>
    obtain ⟨k2, w⟩ := hd
    by_cases hk : k2 = k
    · simp [lookupA, hk] at h
    · simp [lookupA, hk] at h
      simp [eraseA, hk, ih h]

/-- Acquisition outcome of an uncancelled `AcquireLock` call, as a
function of the lock table and the clock. -/
theorem acquire_acquired_eq (locks : List (String × LockEntry))
    (key : String) (ttl now : Int) :
    (acquireLock locks false key ttl now).2.1 = canAcquireB locks key now := by
  unfold acquireLock canAcquireB
  cases hl : lookupA key locks with
  | none => simp
  | some entry =>
    by_cases hn : now < entry.expiresAt <;> simp [hn]

/-! ## C1: Clone ownership (code bug)

`Product.Clone` claims (and the spec requires) a deep copy, but
`copy(clone.Variants, p.Variants)` duplicates only the `Variant` structs:
the attributes map and stock slice inside each variant still point at the
original's backing storage.  Evaluated at a one-variant product, mutating
the attributes map reached through the clone changes what the original
reads back. -/

/-- C1: at the concrete aggregate `aliasProd` in `aliasHeap`, `Clone`
allocates a fresh variants array (cell 7, distinct from the original's
cell 4) whose single element still references attribute cell 0, shared
with the original; writing `size ↦ S` through the clone's variant flips
the original's variant attributes from `XL` to `S`.  This refutes the
claimed mutation-independence of the clone for variant-internal
collections. -/
theorem clone_shares_variant_backing_eval :
    (aliasProd.clone aliasHeap).1.variants = some 7
    ∧ aliasProd.variants = some 4
    ∧ ((aliasProd.clone aliasHeap).2.readVariants 7).map
        HVariant.attributes = [0]
    ∧ ((aliasProd.clone aliasHeap).2.readVariants 4).map
        HVariant.attributes = [0]
    ∧ ((aliasHeap.readVariants 4).map
        (fun v => aliasHeap.readAttrs v.attributes)) = [[("size", "XL")]]
    ∧ ((((aliasProd.clone aliasHeap).2.write 0
          (Cell.attrCell [("size", "S")])).readVariants 4).map
        (fun v => ((aliasProd.clone aliasHeap).2.write 0
          (Cell.attrCell [("size", "S")])).readAttrs v.attributes)) =
      [[("size", "S")]] := by
  decide

/-! ## C6: Lock acquisition -/

/-- C6: `AcquireLock` fails immediately (installing nothing) on an
already-cancelled context; on an uncancelled context it installs a fresh
lock with expiry `now + ttl` and returns true exactly when the key is free
or its existing lock has expired, and otherwise returns false leaving the
table untouched; in particular an existing lock whose expiry has passed
does not block acquisition. -/
theorem acquire_lock_spec (locks : List (String × LockEntry))
    (key : String) (ttl now : Int) :
    acquireLock locks true key ttl now = (locks, false, true)
    ∧ (canAcquireB locks key now = true →
        acquireLock locks false key ttl now =
          (insertA key ⟨lockOwnerName, now + ttl⟩ (eraseA key locks),
            true, false)
        ∧ lookupA key (acquireLock locks false key ttl now).1 =
            some ⟨lockOwnerName, now + ttl⟩)
    ∧ (canAcquireB locks key now = false →
        acquireLock locks false key ttl now = (locks, false, false))
    ∧ (∀ entry : LockEntry, lookupA key locks = some entry →
        entry.expiresAt ≤ now →
        (acquireLock locks false key ttl now).2.1 = true) := by
  refine ⟨by simp [acquireLock], ?_, ?_, ?_⟩
  · intro h
    unfold canAcquireB at h
    cases hl : lookupA key locks with
    | none =>
      constructor
      · simp [acquireLock, hl, eraseA_of_lookup_none key locks hl]
      · simp [acquireLock, hl, lookupA_insertA_self]
    | some entry =>
      rw [hl] at h
      simp only [Bool.not_eq_true'] at h
      have hn : ¬ now < entry.expiresAt := by
        simpa using h
      constructor
      · simp [acquireLock, hl, hn]
      · simp [acquireLock, hl, hn, lookupA_insertA_self]
  · intro h
    unfold canAcquireB at h
    cases hl : lookupA key locks with
    | none => rw [hl] at h; simp at h
    | some entry =>
      rw [hl] at h
      simp only [Bool.not_eq_false'] at h
      have hn : now < entry.expiresAt := by simpa using h
      simp [acquireLock, hl, hn]
  · intro entry he hexp
    have hn : ¬ now < entry.expiresAt := not_lt.mpr hexp
    simp [acquireLock, he, hn]

/-- C6 witness: a lock on `k` expired at 5; at time 7 a 10-tick
acquisition succeeds and installs expiry 17. -/
theorem acquire_lock_spec_witness :
    (acquireLock [("k", ⟨"owner", 5⟩)] false "k" 10 7).2.1 = true
    ∧ lookupA "k" (acquireLock [("k", ⟨"owner", 5⟩)] false "k" 10 7).1 =
        some ⟨"owner", 17⟩ := by
  have h := acquire_lock_spec [("k", ⟨"owner", 5⟩)] "k" 10 7
  refine ⟨h.2.2.2 ⟨"owner", 5⟩ (by decide) (by decide), ?_⟩
  have h2 := (h.2.1 (by decide)).2
  simpa [lockOwnerName] using h2

/-! ## C9: Batch create performs no validation (code bug)

Neither `BatchCreateProducts` nor `CreateProduct` ever calls
`models.ValidateProduct` (validation exists only in the single-item HTTP
handlers), so a draft violating the validation tags is created and
reported successful. -/

/-- C9: in a two-item batch whose second draft has an empty SKU
(violating the `required` validation tag, as `ValidateProduct` confirms),
both result entries report success with an empty error, contradicting the
claimed per-item validation failure. -/
theorem batch_create_skips_validation_eval :
    ValidateProduct fixDraft = true
    ∧ ValidateProduct fixBadDraft = false
    ∧ (batchCreateProducts initialState [fixDraft, fixBadDraft]).2.1 =
      [{ id := "prod_uuid-0", success := true, error := "" },
       { id := "prod_uuid-2", success := true, error := "" }] := by
  decide

/-! ## C7: Batch delete is not single delete (corrected) -/

/-- C7 counterexample: deleting the stored aggregate `p1` through
`BatchDeleteProducts` succeeds yet appends nothing to the event log,
whereas `DeleteProduct` on the same state appends one deletion event —
the batch item's effect on the event log is not that of a single
delete. -/
theorem batch_delete_event_log_counterexample :
    (batchDeleteProducts st7 ["p1"]).2.1 =
      [{ id := "p1", success := true, error := "" }]
    ∧ (batchDeleteProducts st7 ["p1"]).1.repo.events = []
    ∧ (deleteProduct st7 "p1").1.repo.events.length = 1 := by
  decide

/-- C7 amended: a successful `BatchDeleteProducts` item removes the
aggregate from the live table and reports success, but - unlike
`DeleteProduct` - appends nothing to the event log and draws no sequence
number; it only hands the publisher a deletion event whose version,
sequence and entity id are left at their zero values and whose payload
carries no `PrevHash`.  `DeleteProduct` on the same state appends a full
deletion event at `current.version + 1` with `PrevHash` equal to the
current hash and a fresh sequence number. -/
theorem batch_delete_amended (s : ServiceState) (id : String)
    (p : Product) (h : s.repo.getByID id = some p) :
    (batchDeleteProducts s [id]).2.1 =
      [{ id := id, success := true, error := "" }]
    ∧ (batchDeleteProducts s [id]).1.repo.events = s.repo.events
    ∧ (batchDeleteProducts s [id]).1.repo.products =
        eraseA id s.repo.products
    ∧ (batchDeleteProducts s [id]).1.sequence = s.sequence
    ∧ (∃ ev, (batchDeleteProducts s [id]).1.published =
          s.published ++ [ev]
        ∧ ev.type = EventType.productDeleted
        ∧ ev.version = 0 ∧ ev.sequence = 0 ∧ ev.entityID = ""
        ∧ ev.data = .productData {
            productID := id, action := "deleted", product := some p,
            version := 0, prevHash := "", changes := [] })
    ∧ (∃ ev2, (deleteProduct s id).1.repo.events =
          s.repo.events ++ [ev2]
        ∧ ev2.version = p.version + 1
        ∧ ev2.sequence = s.sequence + 1
        ∧ payloadPrevHash ev2 = some p.lastHash) := by
  have hl : lookupA id s.repo.products = some p := h
  refine ⟨?_, ?_, ?_, ?_,
    ⟨{ id := uuidString s.nextUuid,
       type := .productDeleted,
       entityID := "",
       version := 0,
       sequence := 0,
       data := .productData {
         productID := id, action := "deleted", product := some p,
         version := 0, prevHash := "", changes := [] },
       timestamp := s.now,
       causedBy := "" }, ?_, rfl, rfl, rfl, rfl, rfl⟩,
    ⟨{ id := uuidString s.nextUuid,
       type := .productDeleted,
       entityID := id,
       version := p.version + 1,
       sequence := nextSeq s,
       data := .productData {
         productID := id, action := "deleted", product := some p,
         version := p.version + 1, prevHash := p.lastHash,
         changes := [] },
       timestamp := s.now,
       causedBy := "" }, ?_, rfl, rfl, rfl⟩⟩ <;>
    simp [batchDeleteProducts, batchRun, deleteResult, deleteProduct,
      RepoState.getByID, RepoState.deleteProd, RepoState.storeEvent,
      payloadPrevHash, hl]

/-- C7 amended witness: the singleton batch delete of `p1` on `st7`. -/
theorem batch_delete_amended_witness :
    (batchDeleteProducts st7 ["p1"]).2.1 =
      [{ id := "p1", success := true, error := "" }]
    ∧ (batchDeleteProducts st7 ["p1"]).1.repo.events = st7.repo.events
    ∧ (batchDeleteProducts st7 ["p1"]).1.repo.products =
        eraseA "p1" st7.repo.products
    ∧ (batchDeleteProducts st7 ["p1"]).1.sequence = st7.sequence
    ∧ (∃ ev, (batchDeleteProducts st7 ["p1"]).1.published =
          st7.published ++ [ev]
        ∧ ev.type = EventType.productDeleted
        ∧ ev.version = 0 ∧ ev.sequence = 0 ∧ ev.entityID = ""
        ∧ ev.data = .productData {
            productID := "p1", action := "deleted",
            product := some fixStored, version := 0, prevHash := "",
            changes := [] })
    ∧ (∃ ev2, (deleteProduct st7 "p1").1.repo.events =
          st7.repo.events ++ [ev2]
        ∧ ev2.version = fixStored.version + 1
        ∧ ev2.sequence = st7.sequence + 1
        ∧ payloadPrevHash ev2 = some fixStored.lastHash) :=
  batch_delete_amended st7 "p1" fixStored (by decide)

/-! ## C4: Version conflict is a pure failure with the lock released -/

/-- The update tail releases the per-key lock on both of its exit
paths. -/
theorem updateApply_releases (s1 : ServiceState) (product current : Product) :
    lookupA product.id (updateApply s1 product current).1.locks = none := by
  simp only [updateApply]
  split <;> simp [releaseIn, releaseLock, lookupA_eraseA_self]

/-- Any `UpdateProduct` call that gets past lock acquisition ends with the
per-key lock absent from the lock table, on every exit path. -/
theorem update_releases_lock (s : ServiceState) (c : Product)
    (hid : c.id ≠ "") (hacq : canAcquireB s.locks c.id s.now = true) :
    lookupA c.id (updateProduct s c).1.locks = none := by
  have hacq2 :
      ((acquireLock s.locks false c.id updateLockTTL s.now).2.1 = false) =
        False := by
    rw [acquire_acquired_eq, hacq]
    simp
  unfold updateProduct
  simp only [hid, if_false, hacq2, ite_false]
  split
  · simp [releaseIn, releaseLock, lookupA_eraseA_self]
  · split
    · simp [releaseIn, releaseLock, lookupA_eraseA_self]
    · exact updateApply_releases _ _ _

/-- C4: when the lock is acquirable but the candidate's version differs
from the committed one, `UpdateProduct` fails with the version-conflict
error (a constructor distinct from the lock-contention error), leaves the
whole repository - event log and live table - unchanged, and ends with the
acquired lock released; and on every other exit path past acquisition the
lock is likewise released. -/
theorem update_version_conflict (s : ServiceState) (c cur : Product)
    (hid : c.id ≠ "")
    (hacq : canAcquireB s.locks c.id s.now = true)
    (hcur : s.repo.getByID c.id = some cur)
    (hver : c.version ≠ cur.version) :
    (updateProduct s c).2 =
      .error (.versionConflict cur.version c.version)
    ∧ SvcErr.versionConflict cur.version c.version ≠ SvcErr.lockContention
    ∧ (updateProduct s c).1.repo = s.repo
    ∧ lookupA c.id (updateProduct s c).1.locks = none
    ∧ (∀ s2 : ServiceState, ∀ c2 : Product, c2.id ≠ "" →
        canAcquireB s2.locks c2.id s2.now = true →
        lookupA c2.id (updateProduct s2 c2).1.locks = none) := by
  have hacq2 :
      ((acquireLock s.locks false c.id updateLockTTL s.now).2.1 = false) =
        False := by
    rw [acquire_acquired_eq, hacq]
    simp
  refine ⟨?_, ?_, ?_, ?_,
    fun s2 c2 h1 h2 => update_releases_lock s2 c2 h1 h2⟩
  · simp [updateProduct, hid, hacq2, hcur, hver]
  · intro hcontra
    exact SvcErr.noConfusion hcontra
  · simp [updateProduct, hid, hacq2, hcur, hver, releaseIn]
  · simp [updateProduct, hid, hacq2, hcur, hver, releaseIn, releaseLock,
      lookupA_eraseA_self]

/-- C4 witness: the stale candidate `fixConflict` (version 2) against
`fixStored` (version 1) in `st7`. -/
theorem update_version_conflict_witness :
    (updateProduct st7 fixConflict).2 =
      .error (.versionConflict fixStored.version fixConflict.version)
    ∧ SvcErr.versionConflict fixStored.version fixConflict.version ≠
        SvcErr.lockContention
    ∧ (updateProduct st7 fixConflict).1.repo = st7.repo
    ∧ lookupA fixConflict.id (updateProduct st7 fixConflict).1.locks =
        none
    ∧ (∀ s2 : ServiceState, ∀ c2 : Product, c2.id ≠ "" →
        canAcquireB s2.locks c2.id s2.now = true →
        lookupA c2.id (updateProduct s2 c2).1.locks = none) :=
  update_version_conflict st7 fixConflict fixStored (by decide)
    (by decide) (by decide) (by decide)

/-! ## C5: Creation yields version 1, a matching hash, a creation event -/

/-- C5: for every valid draft, `CreateProduct` returns the aggregate at
version 1 with `LastHash` equal to `CalculateHash` of its own state,
appends exactly one creation event whose payload has an empty `PrevHash`
and carries the version-1 aggregate as its snapshot, and commits the
aggregate to the live table. -/
theorem create_product_spec (s : ServiceState) (draft : Product)
    (hval : ValidateProduct draft = true) :
    (createProduct s draft).2.version = 1
    ∧ (createProduct s draft).2.lastHash =
        (createProduct s draft).2.calculateHash
    ∧ (∃ ev, (createProduct s draft).1.repo.events =
          s.repo.events ++ [ev]
        ∧ ev.type = EventType.productCreated
        ∧ ev.entityID = (createProduct s draft).2.id
        ∧ ev.version = 1
        ∧ ev.data = .productData {
            productID := (createProduct s draft).2.id,
            action := "created",
            product := some (createProduct s draft).2,
            version := 1, prevHash := "", changes := [] })
    ∧ (createProduct s draft).1.repo.getByID
        (createProduct s draft).2.id = some (createProduct s draft).2 := by
  refine ⟨rfl, ?_, ⟨_, rfl, rfl, rfl, rfl, rfl⟩, ?_⟩
  · simp [createProduct, Product.calculateHash]
  · simp [createProduct, RepoState.getByID, RepoState.create,
      RepoState.storeEvent, lookupA_insertA_self]

/-- C5 witness: `fixDraft` on the freshly wired service. -/
theorem create_product_spec_witness :
    (createProduct initialState fixDraft).2.version = 1
    ∧ (createProduct initialState fixDraft).2.lastHash =
        (createProduct initialState fixDraft).2.calculateHash
    ∧ (∃ ev, (createProduct initialState fixDraft).1.repo.events =
          initialState.repo.events ++ [ev]
        ∧ ev.type = EventType.productCreated
        ∧ ev.entityID = (createProduct initialState fixDraft).2.id
        ∧ ev.version = 1
        ∧ ev.data = .productData {
            productID := (createProduct initialState fixDraft).2.id,
            action := "created",
            product := some (createProduct initialState fixDraft).2,
            version := 1, prevHash := "", changes := [] })
    ∧ (createProduct initialState fixDraft).1.repo.getByID
        (createProduct initialState fixDraft).2.id =
          some (createProduct initialState fixDraft).2 :=
  create_product_spec initialState fixDraft (by decide)

/-! ## C10: Pagination never goes out of bounds -/

theorem length_insertByCreatedDesc (p : Product) (l : List Product) :
    (insertByCreatedDesc p l).length = l.length + 1 := by
  induction l with
  | nil => rfl
  | cons x xs ih =>
    by_cases hx : x.createdAt < p.createdAt
    · simp [insertByCreatedDesc, hx]
    · simp [insertByCreatedDesc, hx, ih]

theorem length_sortByCreatedDesc (l : List Product) :
    (sortByCreatedDesc l).length = l.length := by
  induction l with
  | nil => rfl
  | cons x xs ih => simp [sortByCreatedDesc, length_insertByCreatedDesc, ih]

theorem mem_insertByCreatedDesc {a p : Product} {l : List Product} :
    a ∈ insertByCreatedDesc p l ↔ a = p ∨ a ∈ l := by
  induction l with
  | nil => simp [insertByCreatedDesc]
  | cons x xs ih =>
    by_cases hx : x.createdAt < p.createdAt
    · simp [insertByCreatedDesc, hx]
    · simp [insertByCreatedDesc, hx, ih]
      tauto

theorem pairwise_insertByCreatedDesc (p : Product) (l : List Product)
    (h : l.Pairwise (fun a b => b.createdAt ≤ a.createdAt)) :
    (insertByCreatedDesc p l).Pairwise
      (fun a b => b.createdAt ≤ a.createdAt) := by
  induction l with
  | nil => simp [insertByCreatedDesc]
  | cons x xs ih =>
    rcases List.pairwise_cons.mp h with ⟨hx, hxs⟩
    by_cases hcmp : x.createdAt < p.createdAt
    · simp only [insertByCreatedDesc, hcmp, if_true]
      refine List.pairwise_cons.mpr ⟨?_, h⟩
      intro b hb
      rcases List.mem_cons.mp hb with hbx | hbxs
      · exact hbx ▸ le_of_lt hcmp
      · exact le_trans (hx b hbxs) (le_of_lt hcmp)
    · simp only [insertByCreatedDesc, hcmp, if_false]
      refine List.pairwise_cons.mpr ⟨?_, ih hxs⟩
      intro b hb
      rcases mem_insertByCreatedDesc.mp hb with hbp | hbxs
      · exact hbp ▸ le_of_not_lt hcmp
      · exact hx b hbxs

theorem pairwise_sortByCreatedDesc (l : List Product) :
    (sortByCreatedDesc l).Pairwise
      (fun a b => b.createdAt ≤ a.createdAt) := by
  induction l with
  | nil => simp [sortByCreatedDesc]
  | cons x xs ih =>
    exact pairwise_insertByCreatedDesc x (sortByCreatedDesc xs) ih

theorem goSlice_some {l : List α} {a b : Int} (h0 : 0 ≤ a) (hab : a ≤ b)
    (hb : b ≤ (l.length : Int)) :
    goSlice l a b = some ((l.drop a.toNat).take (b - a).toNat) := by
  simp [goSlice, h0, hab, hb]

/-- C10: for every page at least 1 and non-negative page size, `List`
returns without any out-of-bounds slice: it reports the total number of
stored aggregates, answers the empty page when `(page-1)*pageSize`
reaches the total, and otherwise the window of length
`min pageSize (total - start)` starting at `start` of the aggregates
sorted newest-first. -/
theorem list_pagination_safe (r : RepoState) (page pageSize : Int)
    (hp : 1 ≤ page) (hs : 0 ≤ pageSize) :
    ∃ res,
      listProducts r page pageSize =
        some (res,
          ((sortByCreatedDesc (r.products.map (fun kv => kv.2))).length :
            Int))
      ∧ ((sortByCreatedDesc (r.products.map (fun kv => kv.2))).length :
            Int) = (r.products.length : Int)
      ∧ ((r.products.length : Int) ≤ (page - 1) * pageSize → res = [])
      ∧ ((page - 1) * pageSize < (r.products.length : Int) →
          res = ((sortByCreatedDesc (r.products.map (fun kv => kv.2))).drop
              ((page - 1) * pageSize).toNat).take
            ((min pageSize
              ((r.products.length : Int) - (page - 1) * pageSize)).toNat))
      ∧ (sortByCreatedDesc (r.products.map (fun kv => kv.2))).Pairwise
          (fun a b => b.createdAt ≤ a.createdAt) := by
  have hlen : (sortByCreatedDesc (r.products.map (fun kv => kv.2))).length
      = r.products.length := by
    rw [length_sortByCreatedDesc, List.length_map]
  have hlenI :
      ((sortByCreatedDesc (r.products.map (fun kv => kv.2))).length : Int)
        = (r.products.length : Int) := by exact_mod_cast hlen
  have ha0 : 0 ≤ (page - 1) * pageSize :=
    mul_nonneg (by omega) hs
  by_cases hcase :
      ((sortByCreatedDesc (r.products.map (fun kv => kv.2))).length : Int)
        ≤ (page - 1) * pageSize
  · refine ⟨[], ?_, hlenI, fun _ => rfl, ?_, pairwise_sortByCreatedDesc _⟩
    · simp only [listProducts]
      rw [if_pos hcase]
    · intro hlt
      omega
  · push_neg at hcase
    have hab : (page - 1) * pageSize ≤
        (if ((sortByCreatedDesc (r.products.map (fun kv => kv.2))).length :
            Int) < (page - 1) * pageSize + pageSize
          then ((sortByCreatedDesc
            (r.products.map (fun kv => kv.2))).length : Int)
          else (page - 1) * pageSize + pageSize) := by
      split <;> omega
    have hb : (if ((sortByCreatedDesc
          (r.products.map (fun kv => kv.2))).length : Int) <
            (page - 1) * pageSize + pageSize
          then ((sortByCreatedDesc
            (r.products.map (fun kv => kv.2))).length : Int)
          else (page - 1) * pageSize + pageSize) ≤
        ((sortByCreatedDesc (r.products.map (fun kv => kv.2))).length :
          Int) := by
      split <;> omega
    refine ⟨((sortByCreatedDesc (r.products.map (fun kv => kv.2))).drop
        ((page - 1) * pageSize).toNat).take
        ((
          (if ((sortByCreatedDesc
                (r.products.map (fun kv => kv.2))).length : Int) <
              (page - 1) * pageSize + pageSize
            then ((sortByCreatedDesc
              (r.products.map (fun kv => kv.2))).length : Int)
            else (page - 1) * pageSize + pageSize) -
          (page - 1) * pageSize).toNat),
      ?_, hlenI, fun hge => absurd hge (by omega), ?_,
      pairwise_sortByCreatedDesc _⟩
    · simp only [listProducts]
      rw [if_neg (not_le.mpr hcase), goSlice_some ha0 hab hb]
      rfl
    · intro _
      congr 1
      rcases min_cases pageSize
          ((r.products.length : Int) - (page - 1) * pageSize) with
        ⟨hm, hc⟩ | ⟨hm, hc⟩ <;> rw [hm] <;> split <;> omega

/-- C10 witness: three stored aggregates, page 2 of size 2 returns the
single remaining (oldest) aggregate. -/
theorem list_pagination_safe_witness :
    ∃ res,
      listProducts fix10Repo 2 2 =
        some (res,
          ((sortByCreatedDesc (fix10Repo.products.map (fun kv => kv.2))).length :
            Int))
      ∧ ((sortByCreatedDesc (fix10Repo.products.map (fun kv => kv.2))).length :
            Int) = (fix10Repo.products.length : Int)
      ∧ ((fix10Repo.products.length : Int) ≤ (2 - 1) * 2 → res = [])
      ∧ ((2 - 1) * 2 < (fix10Repo.products.length : Int) →
          res = ((sortByCreatedDesc (fix10Repo.products.map (fun kv => kv.2))).drop
              (((2 : Int) - 1) * 2).toNat).take
            ((min (2 : Int)
              ((fix10Repo.products.length : Int) - (2 - 1) * 2)).toNat))
      ∧ (sortByCreatedDesc (fix10Repo.products.map (fun kv => kv.2))).Pairwise
          (fun a b => b.createdAt ≤ a.createdAt) :=
  list_pagination_safe fix10Repo 2 2 (by decide) (by decide)

/-! ## C8: Batch results are index-aligned and never abort -/

theorem batchRun_length
    (step : ServiceState → α → ServiceState × BatchResult)
    (s : ServiceState) (l : List α) :
    (batchRun step s l).2.length = l.length := by
  induction l generalizing s with
  | nil => rfl
  | cons x xs ih => simp [batchRun, ih]

theorem batchRun_getD
    (step : ServiceState → α → ServiceState × BatchResult)
    (s : ServiceState) (l : List α) (i : Fin l.length) :
    (batchRun step s l).2.getD i.val dfltResult =
      (step (threadState step s (l.take i.val)) (l.get i)).2 := by
  induction l generalizing s with
  | nil => exact absurd i.isLt (by simp)
  | cons x xs ih =>
    obtain ⟨iv, hlt⟩ := i
    cases iv with
    | zero => simp [batchRun, threadState, List.take]
    | succ n =>
      have hn : n < xs.length := by simpa using hlt
      have := ih (step s x).1 ⟨n, hn⟩
      simpa [batchRun, threadState, List.take_succ_cons] using this

/-- The update tail only ever returns the bumped aggregate, which keeps
the candidate's id. -/
theorem updateApply_ok_id (s1 : ServiceState) (product current u : Product)
    (h : (updateApply s1 product current).2 = .ok u) : u.id = product.id := by
  simp only [updateApply] at h
  split at h
  · simp at h
  · simp only [Except.ok.injEq] at h
    subst h
    rfl

/-- A nil-returning `UpdateProduct` hands back the aggregate under the
candidate's own id. -/
theorem updateProduct_ok_id (s : ServiceState) (p u : Product)
    (h : (updateProduct s p).2 = .ok u) : u.id = p.id := by
  by_cases h1 : p.id = ""
  · simp [updateProduct, h1] at h
  · by_cases h2 :
        (acquireLock s.locks false p.id updateLockTTL s.now).2.1 = false
    · simp [updateProduct, h1, h2] at h
    · cases h3 : lookupA p.id s.repo.products with
      | none => simp [updateProduct, h1, h2, RepoState.getByID, h3] at h
      | some current =>
        by_cases h4 : p.version = current.version
        · simp [updateProduct, h1, h2, RepoState.getByID, h3, h4] at h
          exact updateApply_ok_id _ _ _ _ h
        · simp [updateProduct, h1, h2, RepoState.getByID, h3, h4] at h

/-- C8: each batch operation answers one result slot per input item (in
input order), the whole-batch error return is always nil, slot `i` is
exactly the outcome of running item `i`'s body from the state it
observes - so one item's failure neither aborts nor reorders the others -
and the update/delete slots carry their own item's identity. -/
theorem batch_results_index_aligned (s : ServiceState)
    (ps qs : List Product) (ids : List String) :
    ((batchCreateProducts s ps).2.1.length = ps.length
      ∧ (batchCreateProducts s ps).2.2 = none
      ∧ ∀ i : Fin ps.length,
          (batchCreateProducts s ps).2.1.getD i.val dfltResult =
            (createResult (threadState createResult s (ps.take i.val))
              (ps.get i)).2)
    ∧ ((batchUpdateProducts s qs).2.1.length = qs.length
      ∧ (batchUpdateProducts s qs).2.2 = none
      ∧ (∀ i : Fin qs.length,
          (batchUpdateProducts s qs).2.1.getD i.val dfltResult =
            (updateResult (threadState updateResult s (qs.take i.val))
              (qs.get i)).2)
      ∧ ∀ i : Fin qs.length,
          ((batchUpdateProducts s qs).2.1.getD i.val dfltResult).id =
            (qs.get i).id)
    ∧ ((batchDeleteProducts s ids).2.1.length = ids.length
      ∧ (batchDeleteProducts s ids).2.2 = none
      ∧ (∀ i : Fin ids.length,
          (batchDeleteProducts s ids).2.1.getD i.val dfltResult =
            (deleteResult (threadState deleteResult s (ids.take i.val))
              (ids.get i)).2)
      ∧ ∀ i : Fin ids.length,
          ((batchDeleteProducts s ids).2.1.getD i.val dfltResult).id =
            ids.get i) := by
  refine ⟨⟨batchRun_length _ s ps, rfl, fun i => batchRun_getD _ s ps i⟩,
    ⟨batchRun_length _ s qs, rfl, fun i => batchRun_getD _ s qs i, ?_⟩,
    ⟨batchRun_length _ s ids, rfl, fun i => batchRun_getD _ s ids i, ?_⟩⟩
  · intro i
    rw [show (batchUpdateProducts s qs).2.1 = (batchRun updateResult s qs).2
        from rfl, batchRun_getD updateResult s qs i]
    generalize threadState updateResult s (qs.take i.val) = st
    cases hu : (updateProduct st (qs.get i)).2 with
    | ok u =>
      have hu2 : (updateProduct st qs[i.val]).2 = Except.ok u := by
        simpa using hu
      have hr : (updateResult st (qs.get i)).2 =
          { id := u.id, success := true, error := "" } := by
        simp [updateResult, hu2]
      rw [hr]
      exact updateProduct_ok_id st (qs.get i) u hu
    | error e =>
      have hu2 : (updateProduct st qs[i.val]).2 = Except.error e := by
        simpa using hu
      have hr : (updateResult st (qs.get i)).2 =
          { id := (qs.get i).id, success := false, error := e.message } := by
        simp [updateResult, hu2]
      rw [hr]
  · intro i
    rw [show (batchDeleteProducts s ids).2.1 = (batchRun deleteResult s ids).2
        from rfl, batchRun_getD deleteResult s ids i]
    generalize threadState deleteResult s (ids.take i.val) = st
    simp only [deleteResult]
    split
    · rfl
    · split <;> rfl

/-! ## C3: Replay returns the sorted history iff the chain verifies -/

theorem checkFirst_ok_iff (e : Event) :
    checkFirstEvent e = .ok () ↔ condFirstB e = true := by
  cases hd : e.data with
  | otherData => simp [checkFirstEvent, condFirstB, hd]
  | productData pe =>
    by_cases ht : e.type = EventType.productCreated <;>
      by_cases hh : pe.prevHash = "" <;>
        simp [checkFirstEvent, condFirstB, hd, ht, hh]

theorem checkPairs_ok_iff :
    ∀ (l : List Event) (prev : Event),
      checkPairs prev l = .ok () ↔ condPairsB prev l = true := by
  intro l
  induction l with
  | nil => intro prev; simp [checkPairs, condPairsB]
  | cons curr rest ih =>
    intro prev
    cases hc : curr.data with
    | otherData =>
      simp [checkPairs, condPairsB, payloadPrevHash, hc]
    | productData ce =>
      cases hp : prev.data with
      | otherData =>
        simp [checkPairs, condPairsB, payloadPrevHash, snapshotHash, hc, hp]
      | productData pe =>
        by_cases hv : curr.version = prev.version + 1
        · cases hprod : pe.product with
          | none =>
            simp [checkPairs, condPairsB, payloadPrevHash, snapshotHash,
              hc, hp, hv, hprod]
          | some prevProd =>
            by_cases hh : ce.prevHash = prevProd.lastHash <;>
              simp [checkPairs, condPairsB, payloadPrevHash, snapshotHash,
                hc, hp, hv, hprod, hh, ih]
        · simp [checkPairs, condPairsB, payloadPrevHash, snapshotHash,
            hc, hp, hv]

theorem validateChain_ok_iff (l : List Event) :
    validateChain l = .ok () ↔ chainOKB l = true := by
  cases l with
  | nil => simp [validateChain, chainOKB]
  | cons e rest =>
    cases hf : checkFirstEvent e with
    | error err =>
      have hcond : ¬ condFirstB e = true := by
        rw [← checkFirst_ok_iff, hf]
        simp
      simp [validateChain, chainOKB, hf, hcond]
    | ok u =>
      cases u
      have hcond : condFirstB e = true := (checkFirst_ok_iff e).mp hf
      simp [validateChain, chainOKB, hf, hcond, checkPairs_ok_iff]

theorem length_insertByVersion (e : Event) (l : List Event) :
    (insertByVersion e l).length = l.length + 1 := by
  induction l with
  | nil => rfl
  | cons x xs ih =>
    by_cases hx : e.version ≤ x.version <;>
      simp [insertByVersion, hx, ih]

theorem length_sortByVersion (l : List Event) :
    (sortByVersion l).length = l.length := by
  induction l with
  | nil => rfl
  | cons x xs ih => simp [sortByVersion, length_insertByVersion, ih]

theorem lastD_append_single (d x : Event) (l : List Event) :
    lastD d (l ++ [x]) = x := by
  induction l generalizing d with
  | nil => rfl
  | cons y ys ih => simpa [lastD] using ih y

theorem condPairsB_last_typed :
    ∀ (l : List Event) (prev x : Event),
      condPairsB prev (l ++ [x]) = true →
      (payloadPrevHash x).isSome = true := by
  intro l
  induction l with
  | nil =>
    intro prev x h
    simp only [List.nil_append, condPairsB, Bool.and_eq_true] at h
    exact h.1.1.2
  | cons curr rest ih =>
    intro prev x h
    simp only [List.cons_append, condPairsB, Bool.and_eq_true] at h
    exact ih curr x h.2

theorem checkPairs_append (l2 : List Event) :
    ∀ (l1 : List Event) (prev : Event), condPairsB prev l1 = true →
      checkPairs prev (l1 ++ l2) = checkPairs (lastD prev l1) l2 := by
  intro l1
  induction l1 with
  | nil => intro prev _; simp [lastD]
  | cons curr rest ih =>
    intro prev h
    simp only [condPairsB, Bool.and_eq_true] at h
    obtain ⟨⟨⟨hv, hsome⟩, heq⟩, hrest⟩ := h
    cases hc : curr.data with
    | otherData => simp [payloadPrevHash, hc] at hsome
    | productData ce =>
      cases hp : prev.data with
      | otherData =>
        simp [payloadPrevHash, snapshotHash, hc, hp] at heq
      | productData pe =>
        cases hprod : pe.product with
        | none =>
          simp [payloadPrevHash, snapshotHash, hc, hp, hprod] at heq
        | some prevProd =>
          have hv2 : curr.version = prev.version + 1 := by simpa using hv
          have hh : ce.prevHash = prevProd.lastHash := by
            simpa [payloadPrevHash, snapshotHash, hc, hp, hprod] using heq
          have hstep := ih curr hrest
          simpa [checkPairs, hc, hp, hv2, hprod, hh, lastD] using hstep

theorem checkPairs_version_break (x y : Event) (rest : List Event)
    (hx : ∃ xe, x.data = EventData.productData xe)
    (hy : ∃ ye, y.data = EventData.productData ye)
    (hv : y.version ≠ x.version + 1) :
    checkPairs x (y :: rest) =
      .error (.chainBroken y.version x.version) := by
  obtain ⟨xe, hxe⟩ := hx
  obtain ⟨ye, hye⟩ := hy
  simp [checkPairs, hxe, hye, hv]

theorem condFirstB_typed (e : Event) (h : condFirstB e = true) :
    ∃ pe, e.data = EventData.productData pe := by
  cases hd : e.data with
  | otherData => rw [condFirstB, hd] at h; cases h
  | productData pe => exact ⟨pe, rfl⟩

theorem payloadPrevHash_typed (e : Event)
    (h : (payloadPrevHash e).isSome = true) :
    ∃ pe, e.data = EventData.productData pe := by
  cases hd : e.data with
  | otherData => rw [payloadPrevHash, hd] at h; simp at h
  | productData pe => exact ⟨pe, rfl⟩

/-- C3: `ReplayEvents` returns the stored sequence of the entity (from the
given version), sorted ascending by version and otherwise unchanged,
exactly when (1) the first event is a creation event with empty `PrevHash`
or a non-creation event with a non-empty one, (2) adjacent versions are
contiguous, and (3) each event's `PrevHash` equals its predecessor's
snapshot hash; when verification fails it surfaces the first violation's
error - never a repaired or truncated sequence - and a version gap
following a clean prefix yields precisely the chain-broken error naming
the two offending versions. -/
theorem replay_validates_chain (s : ServiceState) (pid : String)
    (fromV : Int) :
    (∀ l, replayEvents s pid fromV = .ok l ↔
        (l = sortByVersion (getEvents s.repo.events pid fromV)
          ∧ chainOKB (sortByVersion (getEvents s.repo.events pid fromV)) =
              true))
    ∧ (chainOKB (sortByVersion (getEvents s.repo.events pid fromV)) =
          false →
        ∃ err, replayEvents s pid fromV = .error err
          ∧ validateChain
              (sortByVersion (getEvents s.repo.events pid fromV)) =
            .error err)
    ∧ (∀ pre x y rest,
        sortByVersion (getEvents s.repo.events pid fromV) =
          pre ++ x :: y :: rest →
        chainOKB (pre ++ [x]) = true →
        y.version ≠ x.version + 1 →
        (∃ ye, y.data = EventData.productData ye) →
        replayEvents s pid fromV =
          .error (.chainBroken y.version x.version)) := by
  have hempty : getEvents s.repo.events pid fromV = [] →
      sortByVersion (getEvents s.repo.events pid fromV) = [] := by
    intro h; rw [h]; rfl
  refine ⟨?_, ?_, ?_⟩
  · intro l
    by_cases he : getEvents s.repo.events pid fromV = []
    · have hs : sortByVersion (getEvents s.repo.events pid fromV) = [] :=
        hempty he
      simp only [replayEvents, he, hs, List.isEmpty_nil, if_true]
      constructor
      · intro hok
        injection hok with h2
        exact ⟨h2.symm, rfl⟩
      · rintro ⟨rfl, _⟩
        rfl
    · have hne : (getEvents s.repo.events pid fromV).isEmpty = false := by
        cases hev : getEvents s.repo.events pid fromV with
        | nil => exact absurd hev he
        | cons a as => rfl
      simp only [replayEvents, hne, Bool.false_eq_true, if_false]
      cases hv : validateChain
          (sortByVersion (getEvents s.repo.events pid fromV)) with
      | ok u =>
        cases u
        have hc := (validateChain_ok_iff _).mp hv
        constructor
        · intro hok
          have hok2 : (Except.ok
              (sortByVersion (getEvents s.repo.events pid fromV)) :
                Except ReplayErr (List Event)) = Except.ok l := hok
          injection hok2 with h2
          exact ⟨h2.symm, hc⟩
        · rintro ⟨rfl, _⟩
          rfl
      | error err =>
        have hc : ¬ chainOKB
            (sortByVersion (getEvents s.repo.events pid fromV)) = true := by
          intro hcc
          have hok := (validateChain_ok_iff _).mpr hcc
          rw [hv] at hok
          exact Except.noConfusion hok
        constructor
        · intro hok
          have hok2 : (Except.error err :
              Except ReplayErr (List Event)) = Except.ok l := hok
          exact Except.noConfusion hok2
        · rintro ⟨rfl, hcc⟩
          exact absurd hcc hc
  · intro hfail
    have he : getEvents s.repo.events pid fromV ≠ [] := by
      intro h
      rw [hempty h] at hfail
      simp [chainOKB] at hfail
    have hne : (getEvents s.repo.events pid fromV).isEmpty = false := by
      cases hev : getEvents s.repo.events pid fromV with
      | nil => exact absurd hev he
      | cons a as => rfl
    cases hv : validateChain
        (sortByVersion (getEvents s.repo.events pid fromV)) with
    | ok u =>
      cases u
      rw [(validateChain_ok_iff _).mp hv] at hfail
      cases hfail
    | error err =>
      refine ⟨err, ?_, rfl⟩
      simp only [replayEvents, hne, Bool.false_eq_true, if_false, hv]
  · intro pre x y rest hsorted hpre hv hyd
    have hxd : ∃ xe, x.data = EventData.productData xe := by
      cases pre with
      | nil =>
        simp only [List.nil_append, chainOKB, Bool.and_eq_true] at hpre
        exact condFirstB_typed x hpre.1
      | cons p0 pre2 =>
        simp only [List.cons_append, chainOKB, Bool.and_eq_true] at hpre
        exact payloadPrevHash_typed x
          (condPairsB_last_typed pre2 p0 x hpre.2)
    have hvc : validateChain (pre ++ x :: y :: rest) =
        .error (.chainBroken y.version x.version) := by
      cases pre with
      | nil =>
        simp only [List.nil_append, chainOKB, Bool.and_eq_true] at hpre
        have hfirst := (checkFirst_ok_iff x).mpr hpre.1
        simp only [List.nil_append, validateChain, hfirst]
        exact checkPairs_version_break x y rest hxd hyd hv
      | cons p0 pre2 =>
        simp only [List.cons_append, chainOKB, Bool.and_eq_true] at hpre
        have hfirst := (checkFirst_ok_iff p0).mpr hpre.1
        have hxy : pre2 ++ x :: y :: rest = (pre2 ++ [x]) ++ (y :: rest) := by
          simp
        simp only [List.cons_append, validateChain, hfirst, hxy]
        rw [checkPairs_append (y :: rest) (pre2 ++ [x]) p0 hpre.2,
          lastD_append_single]
        exact checkPairs_version_break x y rest hxd hyd hv
    have he : getEvents s.repo.events pid fromV ≠ [] := by
      intro h
      rw [h] at hsorted
      exact absurd hsorted.symm (by simp [sortByVersion])
    have hne : (getEvents s.repo.events pid fromV).isEmpty = false := by
      cases hev : getEvents s.repo.events pid fromV with
      | nil => exact absurd hev he
      | cons a as => rfl
    simp only [replayEvents, hne, Bool.false_eq_true, if_false, hsorted,
      hvc]

/-- C3 witness: a store holding a two-event chain out of order; replay
returns it sorted, which the iff certifies via the chain conditions. -/
theorem replay_validates_chain_witness :
    replayEvents st3 "p1" 1 = .ok [fixEv1, fixEv2] :=
  ((replay_validates_chain st3 "p1" 1).1 [fixEv1, fixEv2]).mpr
    ⟨by decide, by decide⟩

/-! ## C2: Create followed by updates yields a gapless hash chain -/

theorem eventsFor_append (l1 l2 : List Event) (e : String) :
    eventsFor (l1 ++ l2) e = eventsFor l1 e ++ eventsFor l2 e := by
  simp [eventsFor, List.filter_append]

theorem seqVersions_succ (n : Nat) :
    seqVersions (n + 1) = seqVersions n ++ [(n : Int) + 1] := by
  simp [seqVersions, List.range_succ]

theorem lastSnapHash_append_single (l : List Event) (ev : Event) :
    lastSnapHash (l ++ [ev]) = snapshotHash ev := by
  cases l with
  | nil => rfl
  | cons a as =>
    show snapshotHash (lastD a (as ++ [ev])) = snapshotHash ev
    rw [lastD_append_single]

theorem firstPrevEmptyB_append (l : List Event) (ev : Event)
    (hne : l ≠ []) :
    firstPrevEmptyB (l ++ [ev]) = firstPrevEmptyB l := by
  cases l with
  | nil => exact absurd rfl hne
  | cons a as => rfl

theorem hashLinkB_append_single :
    ∀ (l : List Event) (prev ev : Event) (h : String),
      hashLinkB prev l = true →
      snapshotHash (lastD prev l) = some h →
      payloadPrevHash ev = some h →
      hashLinkB prev (l ++ [ev]) = true := by
  intro l
  induction l with
  | nil =>
    intro prev ev h _ hlast hev
    have hlast2 : snapshotHash prev = some h := hlast
    simp [hashLinkB, hev, hlast2]
  | cons curr rest ih =>
    intro prev ev h hl hlast hev
    simp only [hashLinkB, Bool.and_eq_true] at hl
    have hstep := ih curr ev h hl.2 hlast hev
    simp only [List.cons_append, hashLinkB, Bool.and_eq_true]
    exact ⟨hl.1, hstep⟩

theorem hashLinkedB_append_single (l : List Event) (ev : Event)
    (h : String) (hl : hashLinkedB l = true)
    (hlast : lastSnapHash l = some h)
    (hev : payloadPrevHash ev = some h) :
    hashLinkedB (l ++ [ev]) = true := by
  cases l with
  | nil => exact absurd hlast (by simp [lastSnapHash])
  | cons a as =>
    show hashLinkB a (as ++ [ev]) = true
    exact hashLinkB_append_single as a ev h hl hlast hev

/-- `CreateProduct` establishes the chain invariant for the fresh entity,
with exactly one stored event. -/
theorem chainInv_create (s0 : ServiceState) (draft : Product)
    (hfresh : eventsFor s0.repo.events (createdId s0) = []) :
    chainInv (createdId s0) (createProduct s0 draft).1
    ∧ (eventsFor (createProduct s0 draft).1.repo.events
        (createdId s0)).length = 1 := by
  have hevs : eventsFor (createProduct s0 draft).1.repo.events
      (createdId s0) =
      [{ id := uuidString (s0.nextUuid + 1),
         type := .productCreated,
         entityID := createdId s0,
         version := 1,
         sequence := nextSeq s0,
         data := .productData {
           productID := createdId s0, action := "created",
           product := some (createProduct s0 draft).2,
           version := 1, prevHash := "", changes := [] },
         timestamp := s0.now,
         causedBy := "" }] := by
    have : (createProduct s0 draft).1.repo.events =
        s0.repo.events ++
          [{ id := uuidString (s0.nextUuid + 1),
             type := .productCreated,
             entityID := createdId s0,
             version := 1,
             sequence := nextSeq s0,
             data := .productData {
               productID := createdId s0, action := "created",
               product := some (createProduct s0 draft).2,
               version := 1, prevHash := "", changes := [] },
             timestamp := s0.now,
             causedBy := "" }] := rfl
    rw [this, eventsFor_append, hfresh]
    simp [eventsFor]
  refine ⟨⟨(createProduct s0 draft).2, ?_, rfl, ?_, ?_, ?_, ?_, ?_⟩, ?_⟩
  · simp [createProduct, createdId, RepoState.getByID, RepoState.create,
      RepoState.storeEvent, lookupA_insertA_self]
  · rw [hevs]
    rfl
  · rw [hevs]
    rfl
  · rw [hevs]
    rfl
  · rw [hevs]
    rfl
  · rw [hevs]
    rfl
  · rw [hevs]
    rfl

/-- On the success path - id present, lock acquirable, versions equal -
`UpdateProduct` is its commit tail. -/
theorem updateProduct_success_eq (s : ServiceState) (c p : Product)
    (hid0 : ¬ c.id = "")
    (hacq : (acquireLock s.locks false c.id updateLockTTL s.now).2.1 = true)
    (hcur : lookupA c.id s.repo.products = some p)
    (hver : c.version = p.version) :
    updateProduct s c =
      updateApply
        { s with locks :=
            (acquireLock s.locks false c.id updateLockTTL s.now).1 }
        c p := by
  simp [updateProduct, RepoState.getByID, hid0, hacq, hcur, hver]

/-- The commit tail's full effect when the candidate's id is present in
the live table: event appended and published, bumped aggregate swapped
in, counters advanced, lock released. -/
theorem updateApply_success_eq (s1 : ServiceState) (c cur q : Product)
    (hpres : lookupA c.id s1.repo.products = some q) :
    updateApply s1 c cur =
      (releaseIn
        { s1 with
          repo := {
            products :=
              insertA c.id (bumped c s1.now) s1.repo.products,
            events := s1.repo.events ++
              [updateEvent s1 cur (bumped c s1.now)] },
          sequence := nextSeq s1,
          nextUuid := s1.nextUuid + 1,
          published := s1.published ++
            [updateEvent s1 cur (bumped c s1.now)] } c.id,
        .ok (bumped c s1.now)) := by
  have hb : (bumped c s1.now).id = c.id := rfl
  simp [updateApply, RepoState.update, RepoState.storeEvent, hb, hpres,
    releaseIn]

/-- A successful `UpdateProduct` preserves the chain invariant and appends
exactly one event for the entity. -/
theorem chainInv_update (s : ServiceState) (c : Product) (e : String)
    (hid : c.id = e) (hInv : chainInv e s) (u : Product)
    (hok : (updateProduct s c).2 = .ok u) :
    chainInv e (updateProduct s c).1
    ∧ (eventsFor (updateProduct s c).1.repo.events e).length =
      (eventsFor s.repo.events e).length + 1 := by
  subst hid
  obtain ⟨p, hget, hpid, hmap, hver, hfirst, hlink, hlast⟩ := hInv
  have hget2 : lookupA c.id s.repo.products = some p := hget
  by_cases hid0 : c.id = ""
  · simp [updateProduct, hid0] at hok
  · by_cases hacq0 :
        (acquireLock s.locks false c.id updateLockTTL s.now).2.1 = false
    · simp [updateProduct, hid0, hacq0] at hok
    · have hacq :
          (acquireLock s.locks false c.id updateLockTTL s.now).2.1 =
            true := by
        revert hacq0
        cases (acquireLock s.locks false c.id updateLockTTL s.now).2.1 <;>
          simp
      by_cases hver0 : c.version = p.version
      · have heq := updateProduct_success_eq s c p hid0 hacq hget2 hver0
        have heq2 := updateApply_success_eq
          { s with locks :=
              (acquireLock s.locks false c.id updateLockTTL s.now).1 }
          c p p hget2
        rw [heq, heq2]
        dsimp only [releaseIn, releaseLock]
        have hevne : eventsFor s.repo.events c.id ≠ [] := by
          intro hnil
          rw [hnil] at hlast
          exact Option.noConfusion hlast
        have hevs : eventsFor
            (s.repo.events ++
              [updateEvent
                { s with locks :=
                    (acquireLock s.locks false c.id updateLockTTL
                      s.now).1 }
                p (bumped c s.now)]) c.id =
            eventsFor s.repo.events c.id ++
              [updateEvent
                { s with locks :=
                    (acquireLock s.locks false c.id updateLockTTL
                      s.now).1 }
                p (bumped c s.now)] := by
          rw [eventsFor_append]
          simp [eventsFor, updateEvent, bumped, Product.clone]
        refine ⟨⟨bumped c s.now, ?_, rfl, ?_, ?_, ?_, ?_, ?_⟩, ?_⟩
        · show lookupA c.id
            (insertA c.id (bumped c s.now) s.repo.products) = _
          exact lookupA_insertA_self c.id (bumped c s.now)
            s.repo.products
        · rw [hevs]
          simp only [List.map_append, List.length_append,
            List.length_singleton]
          rw [hmap, seqVersions_succ]
          congr 1
          have hv2 : (updateEvent
              { s with locks :=
                  (acquireLock s.locks false c.id updateLockTTL
                    s.now).1 }
              p (bumped c s.now)).version = c.version + 1 := rfl
          rw [List.map_singleton, hv2, hver0, hver]
        · rw [hevs]
          have hb : (bumped c s.now).version = c.version + 1 := rfl
          rw [hb, hver0, hver]
          simp
        · rw [hevs, firstPrevEmptyB_append _ _ hevne]
          exact hfirst
        · rw [hevs]
          exact hashLinkedB_append_single _ _ p.lastHash hlink hlast rfl
        · rw [hevs, lastSnapHash_append_single]
          rfl
        · rw [hevs]
          simp
      · simp [updateProduct, RepoState.getByID, hid0, hacq, hget2,
          hver0] at hok

/-- The chain invariant is preserved by any sequence of successful
updates to the entity, each appending one event. -/
theorem chainInv_applyUpdates :
    ∀ (cs : List Product) (s : ServiceState) (e : String),
      chainInv e s → (∀ c ∈ cs, c.id = e) → updatesOkB s cs = true →
      chainInv e (applyUpdates s cs)
      ∧ (eventsFor (applyUpdates s cs).repo.events e).length =
        (eventsFor s.repo.events e).length + cs.length := by
  intro cs
  induction cs with
  | nil =>
    intro s e hInv _ _
    exact ⟨hInv, by simp [applyUpdates]⟩
  | cons c cs2 ih =>
    intro s e hInv hids hok
    simp only [updatesOkB, Bool.and_eq_true] at hok
    obtain ⟨hok1, hok2⟩ := hok
    have hu : ∃ u, (updateProduct s c).2 = .ok u := by
      cases hres : (updateProduct s c).2 with
      | ok u => exact ⟨u, rfl⟩
      | error err => rw [hres] at hok1; cases hok1
    obtain ⟨u, hu⟩ := hu
    have hstep := chainInv_update s c e (hids c (by simp)) hInv u hu
    have hrest := ih (updateProduct s c).1 e hstep.1
      (fun c2 hc2 => hids c2 (by simp [hc2])) hok2
    refine ⟨by simpa [applyUpdates] using hrest.1, ?_⟩
    show (eventsFor (applyUpdates (updateProduct s c).1 cs2).repo.events
        e).length = _
    rw [hrest.2, hstep.2]
    simp only [List.length_cons]
    omega

/-- C2: an entity built by one successful create followed by any number of
successful updates has stored events whose versions are exactly
`1, 2, ..., n+1` in order with no gaps, the first event's `PrevHash` is
empty, and each later event's `PrevHash` equals the previous event's
snapshot `LastHash`. -/
theorem create_update_chain (s0 : ServiceState) (draft : Product)
    (cs : List Product)
    (hfresh : eventsFor s0.repo.events (createdId s0) = [])
    (hids : ∀ c ∈ cs, c.id = createdId s0)
    (hok : updatesOkB (createProduct s0 draft).1 cs = true) :
    (eventsFor (applyUpdates (createProduct s0 draft).1 cs).repo.events
        (createdId s0)).map Event.version =
      seqVersions (cs.length + 1)
    ∧ firstPrevEmptyB
        (eventsFor (applyUpdates (createProduct s0 draft).1 cs).repo.events
          (createdId s0)) = true
    ∧ hashLinkedB
        (eventsFor (applyUpdates (createProduct s0 draft).1 cs).repo.events
          (createdId s0)) = true := by
  have h0 := chainInv_create s0 draft hfresh
  have h1 := chainInv_applyUpdates cs (createProduct s0 draft).1
    (createdId s0) h0.1 hids hok
  have hlen : (eventsFor
      (applyUpdates (createProduct s0 draft).1 cs).repo.events
      (createdId s0)).length = cs.length + 1 := by
    rw [h1.2, h0.2]
    omega
  obtain ⟨p, _, _, hmap, _, hfirst, hlink, _⟩ := h1.1
  refine ⟨?_, hfirst, hlink⟩
  rw [hmap, hlen]

/-- C2 witness: create from `fixDraft` then one successful update with
`fixCand`; the two stored events carry versions 1, 2 with a linked
hash chain. -/
theorem create_update_chain_witness :
    (eventsFor (applyUpdates (createProduct initialState fixDraft).1
        [fixCand]).repo.events (createdId initialState)).map
      Event.version = seqVersions 2
    ∧ firstPrevEmptyB
        (eventsFor (applyUpdates (createProduct initialState fixDraft).1
          [fixCand]).repo.events (createdId initialState)) = true
    ∧ hashLinkedB
        (eventsFor (applyUpdates (createProduct initialState fixDraft).1
          [fixCand]).repo.events (createdId initialState)) = true :=
  create_update_chain initialState fixDraft [fixCand] (by decide)
    (by decide) (by decide)

end Ecom
